import Mathlib

/-!
Shallow embedding of `src/Estufa.c` (greenhouse controller for RP2040).

Machine integers are modelled as `Nat` (or `Int` for C `int` results such as
`atoi`), with an explicit `% 2^w` wherever C overflow/truncation can occur:
`uint16_t` casts are `% 65536`, `uint32_t` arithmetic is `% 4294967296`,
`uint8_t` accumulation is `% 256`.

The UART receive buffer `g_rx_buffer` (a 100-byte C array, lines 65-68) is
modelled as a `List Char` of length 100 for the interrupt handler
`on_uart_rx`; the line handed to `processa_comando` is modelled as the
`List Char` of its C-string contents (the bytes before the first NUL), and
`memset(buffer, 0, 100)` makes that C-string empty, modelled as `[]`.
-/

namespace Estufa

/-! ## Command parser state (src/Estufa.c lines 54-68, 142-172)

`Config` gathers the globals written by `processa_comando`:
`g_umidade_setpoint_raw`, `g_temp_setpoint_raw`, `g_ldr_limiar_raw`,
`g_fotoperiodo_ativo`, `g_meta_luz_segundos`, `g_segundos_de_luz_hoje`. -/

structure Config where
  umid_set : Nat
  temp_set : Nat
  ldr_limiar : Nat
  foto : Bool
  meta : Nat
  seg_luz : Nat
deriving DecidableEq

/-- Parser-visible machine state: configuration, the C-string contents of
`g_rx_buffer`, and the `g_comando_pronto` flag. -/
structure PState where
  cfg : Config
  rx_line : List Char
  pronto : Bool
deriving DecidableEq

/-- Does `p` occur at the head of `s`? (helper for the `strstr` model). -/
def startsWith : List Char → List Char → Bool
  | [], _ => true
  | _ :: _, [] => false
  | p :: ps, c :: cs => p == c && startsWith ps cs

/-- `strstr(s, p) != NULL`: `p` occurs as a contiguous substring of `s`. -/
def hasSub (p : List Char) : List Char → Bool
  | [] => startsWith p []
  | c :: cs => startsWith p (c :: cs) || hasSub p cs

/-- `strrchr(s, ',')` followed by `+ 1`: the suffix of `s` after the last
comma, or `none` when `s` has no comma (NULL in C). -/
def afterLastComma : List Char → Option (List Char)
  | [] => none
  | c :: cs =>
    match afterLastComma cs with
    | some r => some r
    | none => if c == ',' then some cs else none

/-- The whitespace characters skipped by C `atoi`/`atol`. -/
def isSpaceC (c : Char) : Bool :=
  c == ' ' || c == '\x09' || c == '\x0a' || c == '\x0b' || c == '\x0c' || c == '\x0d'

/-- Digit-accumulation loop of `atoi`: consume decimal digits, stop at the
first non-digit. -/
def atoiNat : List Char → Nat → Nat
  | [], acc => acc
  | c :: cs, acc =>
    if '0' ≤ c ∧ c ≤ '9' then atoiNat cs (acc * 10 + (c.toNat - 48)) else acc

/-- C `atoi`/`atol`: skip whitespace, optional sign, then decimal digits;
returns 0 on non-numeric input (mathematical result; the C `int` width is
applied at the use site by the `uint16_t`/`uint32_t` casts). -/
def atoi (s : List Char) : Int :=
  match s.dropWhile isSpaceC with
  | '-' :: rest => - (atoiNat rest 0 : Int)
  | '+' :: rest => (atoiNat rest 0 : Int)
  | rest => (atoiNat rest 0 : Int)

/-- `(uint16_t)` cast of a C `int` value. -/
def toU16 (i : Int) : Nat := (i % 65536).toNat

/-- `(uint32_t)` cast of a C `long` value. -/
def toU32 (i : Int) : Nat := (i % 4294967296).toNat

def patHUMID : List Char := "SET,HUMID,".toList
def patTEMP : List Char := "SET,TEMP,".toList
def patLDR : List Char := "SET,LDR,".toList
def patFOTO : List Char := "SET,FOTO,".toList
def patMETA : List Char := "SET,META_LUZ,".toList
def patRESET : List Char := "RESET,TIMER_LUZ".toList

/-- `processa_comando` (lines 142-172): clears `g_comando_pronto`, matches the
six patterns by substring search in order, first match wins, takes the value
after the last comma through `atoi`/`atol`, and finally zeroes the buffer. -/
def processa_comando (s : PState) : PState :=
  let buf := s.rx_line
  let cfg := s.cfg
  let cfg' :=
    if hasSub patHUMID buf then
      match afterLastComma buf with
      | some v => { cfg with umid_set := toU16 (atoi v) }
      | none => cfg
    else if hasSub patTEMP buf then
      match afterLastComma buf with
      | some v => { cfg with temp_set := toU16 (atoi v) }
      | none => cfg
    else if hasSub patLDR buf then
      match afterLastComma buf with
      | some v => { cfg with ldr_limiar := toU16 (atoi v) }
      | none => cfg
    else if hasSub patFOTO buf then
      match afterLastComma buf with
      | some v => { cfg with foto := toU16 (atoi v) == 1 }
      | none => cfg
    else if hasSub patMETA buf then
      match afterLastComma buf with
      | some v => { cfg with meta := toU32 (atoi v) }
      | none => cfg
    else if hasSub patRESET buf then
      { cfg with seg_luz := 0 }
    else cfg
  { cfg := cfg', rx_line := [], pronto := false }

/-- The concrete command line of the pump set-point scenario. -/
def cmdHumid1234 : List Char := "SET,HUMID,1234".toList

/-- The concrete `RESET,TIMER_LUZ` command line. -/
def cmdResetTimer : List Char := "RESET,TIMER_LUZ".toList

/-! ## Actuator policy (src/Estufa.c lines 218-229) -/

/-- Pump decision (line 218): `g_umidade_filtrada > g_umidade_setpoint_raw`. -/
def pump_on (umid_filt umid_set : Nat) : Bool := decide (umid_set < umid_filt)

/-- Fan decision (line 219): `g_ntc_filtrado < g_temp_setpoint_raw`. -/
def fan_on (ntc_filt temp_set : Nat) : Bool := decide (ntc_filt < temp_set)

/-- Grow-light decision (lines 224-229): inner threshold test only when the
photoperiod is active and the daily goal is not yet reached. -/
def led_on (foto : Bool) (seg meta ldr_filt limiar : Nat) : Bool :=
  if foto && decide (seg < meta) then
    if decide (limiar < ldr_filt) then true else false
  else false

/-! ## Telemetry encoder (src/Estufa.c lines 239-256) -/

/-- `uint8_t` checksum loop (lines 253-254): `soma += packet[i]` over the
first 11 bytes, wrapping at 256. -/
def checksum8 (bytes : List Nat) : Nat :=
  bytes.foldl (fun a b => (a + b) % 256) 0

/-- Packet assembly (lines 239-256): big-endian 16-bit filtered values,
LED state byte, big-endian 32-bit light seconds, checksum, sentinel 0xAA. -/
def build_packet (ldr ntc umid : Nat) (led : Bool) (seg : Nat) : List Nat :=
  let payload : List Nat :=
    [(ldr >>> 8) % 256, ldr % 256,
     (ntc >>> 8) % 256, ntc % 256,
     (umid >>> 8) % 256, umid % 256,
     if led then 1 else 0,
     (seg >>> 24) % 256, (seg >>> 16) % 256, (seg >>> 8) % 256, seg % 256]
  payload ++ [checksum8 payload, 170]

/-! ## UART receive interrupt (src/Estufa.c lines 65-68, 75-89) -/

/-- State owned by `on_uart_rx`: the raw 100-byte `g_rx_buffer`, the cursor
`g_rx_idx`, and the `g_comando_pronto` flag. -/
structure RxState where
  buf : List Char
  idx : Nat
  pronto : Bool
deriving DecidableEq

/-- The NUL byte written as the C-string terminator. -/
def NUL : Char := Char.ofNat 0

/-- One received byte processed by `on_uart_rx` (lines 75-89): a line
terminator finalises a non-empty line (NUL at the cursor, flag set, cursor
reset); any other byte is stored only while the cursor is below
`RX_BUFFER_SIZE - 1 = 99`, and silently dropped otherwise. -/
def rxStep (s : RxState) (c : Char) : RxState :=
  if c == '\n' || c == '\r' then
    if 0 < s.idx then ⟨s.buf.set s.idx NUL, 0, true⟩ else s
  else if s.idx < 99 then ⟨s.buf.set s.idx c, s.idx + 1, s.pronto⟩ else s

/-- The receive interrupt over a whole sequence of received bytes. -/
def rxRun (s : RxState) (cs : List Char) : RxState := cs.foldl rxStep s

/-- Boot state: zero-initialised buffer, cursor 0, flag clear. -/
def rxInit : RxState := ⟨List.replicate 100 NUL, 0, false⟩

/-- Invariant of the receive machinery: the buffer keeps its 100 bytes, the
cursor stays at most 99, and no stored byte is a line terminator. -/
def RxWF (s : RxState) : Prop :=
  s.buf.length = 100 ∧ s.idx ≤ 99 ∧ ∀ ch ∈ s.buf, ch ≠ '\n' ∧ ch ≠ '\r'

/-! ## Moving-average filter and timer callback (src/Estufa.c lines 37-62, 98-136) -/

/-- One filter channel: the circular 32-slot history buffer, its running sum
(`uint32_t`), and the published filtered value (`uint16_t`). -/
structure Chan where
  buf : List Nat
  sum : Nat
  filt : Nat
deriving DecidableEq

/-- One channel update inside `timer_callback` (lines 105-117): subtract the
slot being replaced from the running sum in `uint32_t` arithmetic, add the
new raw sample, overwrite the slot, and publish `(uint16_t)(sum >> 5)`. -/
def chanUpd (idx raw : Nat) (c : Chan) : Chan :=
  let sum' := (c.sum + (4294967296 - c.buf.getD idx 0) + raw) % 4294967296
  { buf := c.buf.set idx raw, sum := sum', filt := (sum' >>> 5) % 65536 }

/-- A channel fed a list of raw samples, threading the shared circular index
`avg_idx` (incremented mod 32 per tick, line 119). -/
def chanFeed : Nat → Chan → List Nat → Chan
  | _, c, [] => c
  | i, c, r :: rs => chanFeed ((i + 1) % 32) (chanUpd i r c) rs

/-- Boot state of a channel: zeroed history (line 201-203), zero sum. -/
def zeroChan : Chan := ⟨List.replicate 32 0, 0, 0⟩

/-- Per-tick inputs of `timer_callback`: the three raw ADC readings, the
current LED pin state read by `gpio_get(LED_PIN)`, and the current light
threshold `g_ldr_limiar_raw` (a config value that commands may change
between ticks). -/
structure TIn where
  ldr_raw : Nat
  ntc_raw : Nat
  umid_raw : Nat
  led : Bool
  limiar : Nat
deriving DecidableEq

/-- State mutated by `timer_callback`: the three filter channels, the shared
circular index, the sub-second tick counter `g_contador_1s`, and
`g_segundos_de_luz_hoje`. -/
structure TState where
  ldr : Chan
  ntc : Chan
  umid : Chan
  avg_idx : Nat
  contador : Nat
  seg : Nat
deriving DecidableEq

/-- `tem_sol` (line 128): inverted LDR polarity, lower raw value means more
ambient light, so light is present when the filtered value is at most the
threshold. -/
def tem_sol (ldr_filt limiar : Nat) : Bool := decide (ldr_filt ≤ limiar)

/-- `timer_callback` (lines 98-136): update the three moving averages and the
circular index, then count a second every 10 ticks, incrementing
`g_segundos_de_luz_hoje` when the LED is on or `tem_sol` holds for the
freshly filtered light value. -/
def timer_callback (inp : TIn) (s : TState) : TState :=
  let ldr' := chanUpd s.avg_idx inp.ldr_raw s.ldr
  let ntc' := chanUpd s.avg_idx inp.ntc_raw s.ntc
  let umid' := chanUpd s.avg_idx inp.umid_raw s.umid
  let idx' := (s.avg_idx + 1) % 32
  let cont' := (s.contador + 1) % 4294967296
  if 10 ≤ cont' then
    { ldr := ldr', ntc := ntc', umid := umid', avg_idx := idx', contador := 0,
      seg := if inp.led || tem_sol ldr'.filt inp.limiar then (s.seg + 1) % 4294967296
             else s.seg }
  else
    { ldr := ldr', ntc := ntc', umid := umid', avg_idx := idx', contador := cont',
      seg := s.seg }

/-- A sequence of timer-callback invocations. -/
def runT (s : TState) (l : List TIn) : TState :=
  l.foldl (fun s inp => timer_callback inp s) s

/-- Boot state of the timer-owned globals. -/
def initTState : TState := ⟨zeroChan, zeroChan, zeroChan, 0, 0, 0⟩

/-- Light continuously present along a run: at every tick the code's own
light-present condition (`led_ligado || tem_sol`, line 131, evaluated on the
freshly updated filtered light value) holds. -/
def luzSempre : TState → List TIn → Bool
  | _, [] => true
  | s, inp :: rest =>
      (inp.led || tem_sol (chanUpd s.avg_idx inp.ldr_raw s.ldr).filt inp.limiar)
      && luzSempre (timer_callback inp s) rest

/-- Well-formedness of a filter channel: 32 slots, `uint16_t`-bounded entries,
`running_sum == sum(history)`, and published value coherent with the sum. -/
def ChanWF (c : Chan) : Prop :=
  c.buf.length = 32 ∧ (∀ x ∈ c.buf, x < 65536) ∧ c.sum = c.buf.sum ∧
    c.filt = (c.sum >>> 5) % 65536

/-- A 33-tick constant input used to instantiate the filter claim. -/
def sampleIn : TIn := ⟨100, 200, 300, false, 0⟩

/-- A tick input with the grow light on, used to instantiate the photoperiod
claim. -/
def luzIn : TIn := ⟨0, 0, 0, true, 0⟩

/-! ## Helper lemmas: UART receive -/

theorem rxRun_append (s : RxState) (l₁ l₂ : List Char) :
    rxRun s (l₁ ++ l₂) = rxRun (rxRun s l₁) l₂ :=
  List.foldl_append _ _ _ _

theorem rxRun_concat (s : RxState) (l : List Char) (c : Char) :
    rxRun s (l ++ [c]) = rxStep (rxRun s l) c := by
  rw [rxRun_append]; rfl

theorem rxWF_init : RxWF rxInit := by
  refine ⟨by simp [rxInit], by simp [rxInit], ?_⟩
  intro ch hch
  have h := List.eq_of_mem_replicate hch
  subst h
  exact ⟨by decide, by decide⟩

theorem rxWF_step (s : RxState) (c : Char) (h : RxWF s) : RxWF (rxStep s c) := by
  obtain ⟨hlen, hidx, hnt⟩ := h
  unfold rxStep
  split
  · split
    · refine ⟨by simp [hlen], by show (0 : Nat) ≤ 99; omega, ?_⟩
      intro ch hch
      rcases List.mem_or_eq_of_mem_set hch with h' | h'
      · exact hnt ch h'
      · subst h'; exact ⟨by decide, by decide⟩
    · exact ⟨hlen, hidx, hnt⟩
  · next hc =>
    split
    · next hlt =>
      refine ⟨by simp [hlen], by show s.idx + 1 ≤ 99; omega, ?_⟩
      intro ch hch
      rcases List.mem_or_eq_of_mem_set hch with h' | h'
      · exact hnt ch h'
      · subst h'
        simp at hc; exact hc
    · exact ⟨hlen, hidx, hnt⟩

theorem rxWF_run (s : RxState) (cs : List Char) (h : RxWF s) : RxWF (rxRun s cs) := by
  induction cs generalizing s with
  | nil => exact h
  | cons c cs ih => exact ih _ (rxWF_step s c h)

theorem set_append_len (l r : List Char) (a : Char) :
    (l ++ r).set l.length a = l ++ r.set 0 a := by
  induction l with
  | nil => simp
  | cons x t ih => simp [List.set_cons_succ, ih]

theorem rxRun_nonterm (cs : List Char) (h : ∀ c ∈ cs, c ≠ '\n' ∧ c ≠ '\r') :
    rxRun rxInit cs =
      ⟨cs.take 99 ++ List.replicate (100 - min cs.length 99) NUL, min cs.length 99, false⟩ := by
  induction cs using List.reverseRecOn with
  | nil => simp [rxRun, rxInit]
  | append_singleton cs c ih =>
    have hcs : ∀ x ∈ cs, x ≠ '\n' ∧ x ≠ '\r' := fun x hx => h x (by simp [hx])
    have hc : c ≠ '\n' ∧ c ≠ '\r' := h c (by simp)
    have hcb : (c == '\n' || c == '\r') = false := by
      simp [hc.1, hc.2]
    rw [rxRun_concat, ih hcs]
    by_cases hlen : cs.length < 99
    · have h99 : min cs.length 99 = cs.length := by omega
      have h99' : min (cs.length + 1) 99 = cs.length + 1 := by omega
      have htake : cs.take 99 = cs := List.take_of_length_le (by omega)
      have htake' : (cs ++ [c]).take 99 = cs ++ [c] :=
        List.take_of_length_le (by simp; omega)
      rw [rxStep]
      simp only [hcb, Bool.false_eq_true, if_false, h99, hlen, if_true, htake]
      rw [show (100 - cs.length) = (99 - cs.length) + 1 by omega, List.replicate_succ]
      rw [show cs.length = cs.length from rfl]
      rw [show (cs ++ (NUL :: List.replicate (99 - cs.length) NUL)).set cs.length c
            = cs ++ ((NUL :: List.replicate (99 - cs.length) NUL).set 0 c) from
          set_append_len cs _ c]
      simp only [List.set]
      simp [List.length_append, h99', htake',
        show (100 - (cs.length + 1)) = 99 - cs.length from by omega]
    · have h99 : min cs.length 99 = 99 := by omega
      have h99' : min (cs.length + 1) 99 = 99 := by omega
      have htake : (cs ++ [c]).take 99 = cs.take 99 :=
        List.take_append_of_le_length (by omega)
      rw [rxStep]
      simp only [hcb, Bool.false_eq_true, if_false, h99]
      simp only [show ¬(99 < 99) from by omega, if_false]
      simp [List.length_append, htake, h99']

/-! ## Helper lemmas: filter and timer -/

theorem runT_cons (s : TState) (inp : TIn) (l : List TIn) :
    runT s (inp :: l) = runT (timer_callback inp s) l := rfl

theorem runT_append (s : TState) (l₁ l₂ : List TIn) :
    runT s (l₁ ++ l₂) = runT (runT s l₁) l₂ :=
  List.foldl_append _ _ _ _

theorem tc_ldr (inp : TIn) (s : TState) :
    (timer_callback inp s).ldr = chanUpd s.avg_idx inp.ldr_raw s.ldr := by
  simp only [timer_callback]; split <;> rfl

theorem tc_ntc (inp : TIn) (s : TState) :
    (timer_callback inp s).ntc = chanUpd s.avg_idx inp.ntc_raw s.ntc := by
  simp only [timer_callback]; split <;> rfl

theorem tc_umid (inp : TIn) (s : TState) :
    (timer_callback inp s).umid = chanUpd s.avg_idx inp.umid_raw s.umid := by
  simp only [timer_callback]; split <;> rfl

theorem tc_idx (inp : TIn) (s : TState) :
    (timer_callback inp s).avg_idx = (s.avg_idx + 1) % 32 := by
  simp only [timer_callback]; split <;> rfl

theorem runT_proj (l : List TIn) : ∀ s : TState,
    (runT s l).ldr = chanFeed s.avg_idx s.ldr (l.map TIn.ldr_raw) ∧
    (runT s l).ntc = chanFeed s.avg_idx s.ntc (l.map TIn.ntc_raw) ∧
    (runT s l).umid = chanFeed s.avg_idx s.umid (l.map TIn.umid_raw) := by
  induction l with
  | nil => intro s; exact ⟨rfl, rfl, rfl⟩
  | cons inp l ih =>
    intro s
    refine ⟨?_, ?_, ?_⟩
    · rw [runT_cons, (ih _).1, tc_ldr, tc_idx]; rfl
    · rw [runT_cons, (ih _).2.1, tc_ntc, tc_idx]; rfl
    · rw [runT_cons, (ih _).2.2, tc_umid, tc_idx]; rfl

theorem sum_set_getD (l : List Nat) (i a : Nat) (h : i < l.length) :
    (l.set i a).sum + l.getD i 0 = l.sum + a := by
  induction l generalizing i with
  | nil => simp at h
  | cons x t ih =>
    cases i with
    | zero => simp [List.set_cons_zero, List.getD_cons_zero]; omega
    | succ j =>
      have hj : j < t.length := by simpa using h
      have := ih j hj
      simp only [List.set_cons_succ, List.sum_cons, List.getD_cons_succ]
      omega

theorem chanUpd_wf (c : Chan) (idx raw : Nat) (h : ChanWF c) (hidx : idx < 32)
    (hraw : raw < 65536) :
    ChanWF (chanUpd idx raw c) ∧
    (chanUpd idx raw c).sum + c.buf.getD idx 0 = c.sum + raw := by
  obtain ⟨hlen, hbnd, hsum, hfil⟩ := h
  have hidx' : idx < c.buf.length := by omega
  have hmem : c.buf.getD idx 0 ∈ c.buf := by
    rw [List.getD_eq_getElem _ _ hidx']
    exact List.getElem_mem hidx'
  have hb : c.buf.getD idx 0 < 65536 := hbnd _ hmem
  have hble : c.buf.getD idx 0 ≤ c.buf.sum :=
    List.single_le_sum (fun x _ => Nat.zero_le x) _ hmem
  have hsle : c.buf.sum ≤ 32 * 65535 := by
    have := List.sum_le_card_nsmul c.buf 65535 (fun x hx => by have := hbnd x hx; omega)
    rw [hlen] at this
    simpa using this
  have hset := sum_set_getD c.buf idx raw hidx'
  have heq : (c.sum + (4294967296 - c.buf.getD idx 0) + raw) % 4294967296
      = c.sum - c.buf.getD idx 0 + raw := by
    rw [hsum]
    omega
  refine ⟨⟨by simp [chanUpd, hlen], ?_, ?_, ?_⟩, ?_⟩
  · intro x hx
    rcases List.mem_or_eq_of_mem_set hx with h' | h'
    · exact hbnd x h'
    · omega
  · show (c.sum + (4294967296 - c.buf.getD idx 0) + raw) % 4294967296
        = (c.buf.set idx raw).sum
    rw [heq, hsum]
    omega
  · rfl
  · show (c.sum + (4294967296 - c.buf.getD idx 0) + raw) % 4294967296
        + c.buf.getD idx 0 = c.sum + raw
    rw [heq, hsum]
    omega

theorem chanFeed_wf (l : List Nat) : ∀ (i : Nat) (c : Chan), ChanWF c → i < 32 →
    (∀ r ∈ l, r < 65536) → ChanWF (chanFeed i c l) := by
  induction l with
  | nil => intro i c hc _ _; exact hc
  | cons r rs ih =>
    intro i c hc hi hb
    exact ih _ _ (chanUpd_wf c i r hc hi (hb r (by simp))).1 (by omega)
      (fun x hx => hb x (by simp [hx]))

theorem chanFeed_len (l : List Nat) : ∀ (i : Nat) (c : Chan),
    (chanFeed i c l).buf.length = c.buf.length := by
  induction l with
  | nil => intro i c; rfl
  | cons r rs ih =>
    intro i c
    rw [chanFeed, ih]
    simp [chanUpd]

theorem chanFeed_append (l₁ l₂ : List Nat) : ∀ (i : Nat) (c : Chan), i < 32 →
    chanFeed i c (l₁ ++ l₂) =
      chanFeed ((i + l₁.length) % 32) (chanFeed i c l₁) l₂ := by
  induction l₁ with
  | nil => intro i c hi; simp [chanFeed, Nat.mod_eq_of_lt hi]
  | cons r rs ih =>
    intro i c hi
    rw [List.cons_append, chanFeed, chanFeed, ih _ _ (by omega)]
    congr 1
    simp [List.length_cons]
    omega

theorem chanFeed_getD (m : List Nat) : ∀ (i : Nat) (c : Chan),
    c.buf.length = 32 → i < 32 → m.length ≤ 32 →
    ∀ t < m.length, (chanFeed i c m).buf.getD ((i + t) % 32) 0 = m.getD t 0 := by
  induction m using List.reverseRecOn with
  | nil => intro i c _ _ _ t ht; simp at ht
  | append_singleton m a ih =>
    intro i c hlen hi hm t ht
    rw [chanFeed_append m [a] i c hi]
    have hm' : m.length ≤ 32 := by simp at hm; omega
    have hj : (i + m.length) % 32 < 32 := Nat.mod_lt _ (by omega)
    have hlen' : (chanFeed i c m).buf.length = 32 := by rw [chanFeed_len]; exact hlen
    have hstep : chanFeed ((i + m.length) % 32) (chanFeed i c m) [a]
        = chanUpd ((i + m.length) % 32) a (chanFeed i c m) := rfl
    rw [hstep]
    have hbuf : (chanUpd ((i + m.length) % 32) a (chanFeed i c m)).buf
        = (chanFeed i c m).buf.set ((i + m.length) % 32) a := rfl
    rw [hbuf]
    simp only [List.length_append, List.length_cons, List.length_nil] at ht
    rcases Nat.lt_succ_iff_lt_or_eq.1 (by omega : t < m.length + 1) with ht' | ht'
    · have hne : (i + m.length) % 32 ≠ (i + t) % 32 := by
        intro hcontra
        have h31 : m.length ≤ 31 := by simp at hm; omega
        omega
      have hpos : (i + t) % 32 < 32 := Nat.mod_lt _ (by omega)
      rw [List.getD_eq_getElem?_getD, List.getElem?_set_ne hne,
        ← List.getD_eq_getElem?_getD, ih i c hlen hi hm' t ht',
        List.getD_append _ _ _ _ ht']
    · subst ht'
      rw [List.getD_eq_getElem _ _ (by rw [List.length_set, hlen']; omega)]
      rw [List.getElem_set_self (by rw [List.length_set, hlen']; omega)]
      rw [List.getD_append_right _ _ _ _ (le_refl _)]
      simp

theorem sum_eq_range_getD (l : List Nat) :
    l.sum = ∑ j ∈ Finset.range l.length, l.getD j 0 := by
  induction l with
  | nil => simp
  | cons x t ih =>
    rw [List.sum_cons, ih, List.length_cons, Finset.sum_range_succ']
    simp only [List.getD_cons_succ, List.getD_cons_zero]
    omega

theorem chanFeed_sum (m : List Nat) (i : Nat) (c : Chan)
    (hlen : c.buf.length = 32) (hi : i < 32) (hm : m.length = 32) :
    (chanFeed i c m).buf.sum = m.sum := by
  have hlen' : (chanFeed i c m).buf.length = 32 := by rw [chanFeed_len]; exact hlen
  rw [sum_eq_range_getD, hlen', sum_eq_range_getD m, hm]
  refine (Finset.sum_nbij' (fun t => (i + t) % 32) (fun j => (j + 32 - i % 32) % 32)
    ?_ ?_ ?_ ?_ ?_).symm
  · intro t ht
    simp only [Finset.mem_range] at *
    omega
  · intro j hj
    simp only [Finset.mem_range] at *
    omega
  · intro t ht
    simp only [Finset.mem_range] at ht
    dsimp only
    omega
  · intro j hj
    simp only [Finset.mem_range] at hj
    dsimp only
    omega
  · intro t ht
    simp only [Finset.mem_range] at ht
    exact (chanFeed_getD m i c hlen hi (by omega) t (by omega)).symm

theorem chanFeed_window (raws : List Nat) (hb : ∀ r ∈ raws, r < 65536)
    (h32 : 32 ≤ raws.length) :
    (chanFeed 0 zeroChan raws).filt = (raws.drop (raws.length - 32)).sum / 32 := by
  have hwfz : ChanWF zeroChan := by
    refine ⟨by simp [zeroChan], ?_, by simp [zeroChan], by simp [zeroChan]⟩
    intro x hx
    have := List.eq_of_mem_replicate hx
    omega
  have hwf : ChanWF (chanFeed 0 zeroChan raws) :=
    chanFeed_wf raws 0 zeroChan hwfz (by omega) hb
  have hsplit := List.take_append_drop (raws.length - 32) raws
  have htlen : (raws.take (raws.length - 32)).length = raws.length - 32 := by
    rw [List.length_take]; omega
  have hdlen : (raws.drop (raws.length - 32)).length = 32 := by
    rw [List.length_drop]; omega
  have hwf1 : ChanWF (chanFeed 0 zeroChan (raws.take (raws.length - 32))) :=
    chanFeed_wf _ 0 zeroChan hwfz (by omega)
      (fun r hr => hb r (List.mem_of_mem_take hr))
  have happ : chanFeed 0 zeroChan raws
      = chanFeed ((raws.length - 32) % 32)
          (chanFeed 0 zeroChan (raws.take (raws.length - 32)))
          (raws.drop (raws.length - 32)) := by
    conv_lhs => rw [← hsplit]
    rw [chanFeed_append _ _ 0 zeroChan (by omega), htlen]
    norm_num
  have hs : (chanFeed 0 zeroChan raws).buf.sum = (raws.drop (raws.length - 32)).sum := by
    rw [happ]
    exact chanFeed_sum _ _ _ hwf1.1 (Nat.mod_lt _ (by omega)) hdlen
  have hdb : (raws.drop (raws.length - 32)).sum ≤ 32 * 65535 := by
    have := List.sum_le_card_nsmul (raws.drop (raws.length - 32)) 65535
      (fun x hx => by have := hb x (List.mem_of_mem_drop hx); omega)
    rw [hdlen] at this
    simpa using this
  obtain ⟨hlen, hbnd, hsum, hfil⟩ := hwf
  rw [hfil, hsum, hs, Nat.shiftRight_eq_div_pow]
  have : (raws.drop (raws.length - 32)).sum / 2 ^ 5 < 65536 := by omega
  rw [Nat.mod_eq_of_lt this]
  norm_num

theorem tc_under (inp : TIn) (s : TState) (h : s.contador + 1 < 10) :
    (timer_callback inp s).contador = s.contador + 1 ∧
    (timer_callback inp s).seg = s.seg := by
  have hm : (s.contador + 1) % 4294967296 = s.contador + 1 :=
    Nat.mod_eq_of_lt (by omega)
  rw [timer_callback]
  simp only [hm]
  rw [if_neg (by omega)]
  exact ⟨rfl, rfl⟩

theorem runT_under (l : List TIn) : ∀ s : TState, s.contador + l.length ≤ 9 →
    (runT s l).contador = s.contador + l.length ∧ (runT s l).seg = s.seg := by
  induction l with
  | nil => intro s _; exact ⟨by simp [runT], rfl⟩
  | cons inp rest ih =>
    intro s h
    simp only [List.length_cons] at h ⊢
    have hu := tc_under inp s (by omega)
    have hrec := ih (timer_callback inp s) (by rw [hu.1]; omega)
    rw [runT_cons]
    exact ⟨by rw [hrec.1, hu.1]; omega, by rw [hrec.2, hu.2]⟩

theorem tc_trigger (inp : TIn) (s : TState) (h : s.contador = 9) :
    (timer_callback inp s).contador = 0 ∧
    (timer_callback inp s).seg =
      (if inp.led || tem_sol (chanUpd s.avg_idx inp.ldr_raw s.ldr).filt inp.limiar
       then (s.seg + 1) % 4294967296 else s.seg) := by
  rw [timer_callback, h]
  rw [show (9 + 1) % 4294967296 = 10 from by norm_num]
  rw [if_pos (le_refl 10)]
  exact ⟨rfl, rfl⟩

theorem luzSempre_append (l₁ l₂ : List TIn) : ∀ s : TState,
    luzSempre s (l₁ ++ l₂) = (luzSempre s l₁ && luzSempre (runT s l₁) l₂) := by
  induction l₁ with
  | nil =>
    intro s
    simp only [List.nil_append, luzSempre, Bool.true_and]
    rfl
  | cons inp rest ih =>
    intro s
    rw [List.cons_append]
    simp only [luzSempre]
    rw [ih, runT_cons, Bool.and_assoc]

/-! ## The claims -/

/-- Claim C1: for every channel (light, temperature, moisture) and every
sequence of timer-callback invocations (with `uint16_t` raw samples, as
`adc_read` returns), after each invocation the running sum equals the sum of
the 32 ring-buffer entries of that channel, and once at least 32 samples have
been fed, the published filtered value equals the truncated integer average
(sum divided by 32, i.e. right-shifted by 5) of exactly the last 32 raw
samples fed to that channel. -/
theorem C1_filter_window (l : List TIn)
    (hb : ∀ inp ∈ l, inp.ldr_raw < 65536 ∧ inp.ntc_raw < 65536 ∧ inp.umid_raw < 65536) :
    ((runT initTState l).ldr.sum = (runT initTState l).ldr.buf.sum ∧
     (runT initTState l).ntc.sum = (runT initTState l).ntc.buf.sum ∧
     (runT initTState l).umid.sum = (runT initTState l).umid.buf.sum) ∧
    (32 ≤ l.length →
      (runT initTState l).ldr.filt = ((l.map TIn.ldr_raw).drop (l.length - 32)).sum / 32 ∧
      (runT initTState l).ntc.filt = ((l.map TIn.ntc_raw).drop (l.length - 32)).sum / 32 ∧
      (runT initTState l).umid.filt = ((l.map TIn.umid_raw).drop (l.length - 32)).sum / 32) := by
  have hwfz : ChanWF zeroChan := by
    refine ⟨by simp [zeroChan], ?_, by simp [zeroChan], by simp [zeroChan]⟩
    intro x hx
    have := List.eq_of_mem_replicate hx
    omega
  obtain ⟨hp1, hp2, hp3⟩ := runT_proj l initTState
  have hidx : initTState.avg_idx = 0 := rfl
  have hbl : ∀ r ∈ l.map TIn.ldr_raw, r < 65536 := by
    intro r hr
    obtain ⟨inp, hinp, rfl⟩ := List.mem_map.1 hr
    exact (hb inp hinp).1
  have hbn : ∀ r ∈ l.map TIn.ntc_raw, r < 65536 := by
    intro r hr
    obtain ⟨inp, hinp, rfl⟩ := List.mem_map.1 hr
    exact (hb inp hinp).2.1
  have hbu : ∀ r ∈ l.map TIn.umid_raw, r < 65536 := by
    intro r hr
    obtain ⟨inp, hinp, rfl⟩ := List.mem_map.1 hr
    exact (hb inp hinp).2.2
  constructor
  · refine ⟨?_, ?_, ?_⟩
    · rw [hp1, hidx]
      exact (chanFeed_wf _ 0 zeroChan hwfz (by omega) hbl).2.2.1
    · rw [hp2, hidx]
      exact (chanFeed_wf _ 0 zeroChan hwfz (by omega) hbn).2.2.1
    · rw [hp3, hidx]
      exact (chanFeed_wf _ 0 zeroChan hwfz (by omega) hbu).2.2.1
  · intro h32
    have hlenl : (l.map TIn.ldr_raw).length = l.length := List.length_map _ _
    have hlenn : (l.map TIn.ntc_raw).length = l.length := List.length_map _ _
    have hlenu : (l.map TIn.umid_raw).length = l.length := List.length_map _ _
    refine ⟨?_, ?_, ?_⟩
    · rw [hp1, hidx, ← hlenl]
      exact chanFeed_window _ hbl (by omega)
    · rw [hp2, hidx, ← hlenn]
      exact chanFeed_window _ hbn (by omega)
    · rw [hp3, hidx, ← hlenu]
      exact chanFeed_window _ hbu (by omega)

/-- Claim C1 witness: the filter claim instantiated at 33 constant samples. -/
theorem C1_witness :
    (∀ inp ∈ List.replicate 33 sampleIn,
      inp.ldr_raw < 65536 ∧ inp.ntc_raw < 65536 ∧ inp.umid_raw < 65536) ∧
    (((runT initTState (List.replicate 33 sampleIn)).ldr.sum
        = (runT initTState (List.replicate 33 sampleIn)).ldr.buf.sum ∧
      (runT initTState (List.replicate 33 sampleIn)).ntc.sum
        = (runT initTState (List.replicate 33 sampleIn)).ntc.buf.sum ∧
      (runT initTState (List.replicate 33 sampleIn)).umid.sum
        = (runT initTState (List.replicate 33 sampleIn)).umid.buf.sum) ∧
     (32 ≤ (List.replicate 33 sampleIn).length →
      (runT initTState (List.replicate 33 sampleIn)).ldr.filt
        = (((List.replicate 33 sampleIn).map TIn.ldr_raw).drop
            ((List.replicate 33 sampleIn).length - 32)).sum / 32 ∧
      (runT initTState (List.replicate 33 sampleIn)).ntc.filt
        = (((List.replicate 33 sampleIn).map TIn.ntc_raw).drop
            ((List.replicate 33 sampleIn).length - 32)).sum / 32 ∧
      (runT initTState (List.replicate 33 sampleIn)).umid.filt
        = (((List.replicate 33 sampleIn).map TIn.umid_raw).drop
            ((List.replicate 33 sampleIn).length - 32)).sum / 32)) :=
  ⟨by decide, C1_filter_window (List.replicate 33 sampleIn) (by decide)⟩

/-- Claim C2: the telemetry encoder at `filtered_light = 1000`,
`filtered_temperature = 2000`, `filtered_moisture = 3000`, grow light on,
`seconds_of_light_today = 90000` produces exactly the 13-byte big-endian
frame 03 E8 07 D0 0B B8 01 00 01 5F 90 76 AA, whose byte 11 is the mod-256
sum of the preceding 11 bytes and whose final byte is the sentinel 0xAA. -/
theorem C2_telemetry_frame :
    build_packet 1000 2000 3000 true 90000 =
      [3, 232, 7, 208, 11, 184, 1, 0, 1, 95, 144, 118, 170] ∧
    ((build_packet 1000 2000 3000 true 90000).take 11).sum % 256 = 118 ∧
    (build_packet 1000 2000 3000 true 90000).getD 12 0 = 170 := by
  decide

/-- Claim C3: from a state whose sub-second tick counter is 0 (and whose
light counter does not overflow), after exactly 10 timer-callback invocations
with light continuously present, `seconds_of_light_today` grows by exactly 1
and the tick counter returns to 0; after any fewer than 10 invocations it has
not grown at all. -/
theorem C3_photoperiod_ten_ticks (s : TState) (l : List TIn)
    (hc : s.contador = 0) (hseg : s.seg + 1 < 4294967296) (hlen : l.length = 10)
    (hluz : luzSempre s l = true) :
    ((runT s l).seg = s.seg + 1 ∧ (runT s l).contador = 0) ∧
    (∀ k < 10, (runT s (l.take k)).seg = s.seg) := by
  have hd1 : (l.drop 9).length = 1 := by rw [List.length_drop, hlen]
  obtain ⟨a, ha⟩ := List.length_eq_one.1 hd1
  have hsplit : l = l.take 9 ++ [a] := by rw [← ha, List.take_append_drop]
  have h9len : (l.take 9).length = 9 := by rw [List.length_take, hlen]; omega
  have hu := runT_under (l.take 9) s (by omega)
  constructor
  · have hrun : runT s l = timer_callback a (runT s (l.take 9)) := by
      conv_lhs => rw [hsplit]
      rw [runT_append]
      rfl
    have htrig := tc_trigger a (runT s (l.take 9)) (by rw [hu.1, hc, h9len])
    have hl : luzSempre s l = (luzSempre s (l.take 9)
        && ((a.led || tem_sol (chanUpd (runT s (l.take 9)).avg_idx a.ldr_raw
              (runT s (l.take 9)).ldr).filt a.limiar) && true)) := by
      conv_lhs => rw [hsplit]
      rw [luzSempre_append]
      rfl
    rw [hl, Bool.and_eq_true, Bool.and_eq_true] at hluz
    have hcond := hluz.2.1
    refine ⟨?_, ?_⟩
    · rw [hrun, htrig.2, hcond, if_pos rfl, hu.2, Nat.mod_eq_of_lt hseg]
    · rw [hrun]
      exact htrig.1
  · intro k hk
    have hkl : (l.take k).length = k := by rw [List.length_take, hlen]; omega
    exact (runT_under (l.take k) s (by omega)).2

/-- Claim C3 witness: the photoperiod claim instantiated at the boot state
and 10 ticks with the grow light on. -/
theorem C3_witness :
    (initTState.contador = 0 ∧ initTState.seg + 1 < 4294967296 ∧
      (List.replicate 10 luzIn).length = 10 ∧
      luzSempre initTState (List.replicate 10 luzIn) = true) ∧
    (((runT initTState (List.replicate 10 luzIn)).seg = initTState.seg + 1 ∧
      (runT initTState (List.replicate 10 luzIn)).contador = 0) ∧
     (∀ k < 10, (runT initTState ((List.replicate 10 luzIn).take k)).seg = initTState.seg)) :=
  ⟨⟨by decide, by decide, by decide, by decide⟩,
   C3_photoperiod_ten_ticks initTState (List.replicate 10 luzIn)
     (by decide) (by decide) (by decide) (by decide)⟩

/-- Claim C4: on every main-loop iteration the grow-light output is set ON
if and only if the photoperiod flag is set AND `seconds_of_light_today` is
strictly below the daily goal AND the filtered light value is strictly above
the light threshold (insufficient ambient light under the inverted sensor
polarity); in every other case, including the iteration where the goal
becomes met, it is set OFF. -/
theorem C4_grow_light_iff (foto : Bool) (seg meta ldr_filt limiar : Nat) :
    led_on foto seg meta ldr_filt limiar = true ↔
      (foto = true ∧ seg < meta ∧ limiar < ldr_filt) := by
  rw [led_on]
  by_cases h1 : (foto && decide (seg < meta)) = true
  · rw [if_pos h1]
    simp only [Bool.and_eq_true, decide_eq_true_eq] at h1
    by_cases h2 : limiar < ldr_filt
    · simp [h1.1, h1.2, h2]
    · simp [h2]
  · rw [if_neg h1]
    simp only [Bool.and_eq_true, decide_eq_true_eq, not_and] at h1
    constructor
    · intro hf
      exact absurd hf (by simp)
    · rintro ⟨hf, hs, _⟩
      exact absurd (h1 hf hs) (by simp)

/-- Claim C5: a line in which none of the six command patterns occurs as a
substring (the malformed / unrecognised case) leaves every configuration
field and `seconds_of_light_today` unchanged, clears the command buffer
entirely, and resets the ready flag. -/
theorem C5_unknown_command_noop (s : PState)
    (h1 : hasSub patHUMID s.rx_line = false)
    (h2 : hasSub patTEMP s.rx_line = false)
    (h3 : hasSub patLDR s.rx_line = false)
    (h4 : hasSub patFOTO s.rx_line = false)
    (h5 : hasSub patMETA s.rx_line = false)
    (h6 : hasSub patRESET s.rx_line = false) :
    processa_comando s = ⟨s.cfg, [], false⟩ := by
  simp [processa_comando, h1, h2, h3, h4, h5, h6]

/-- Claim C5 witness: the no-op claim instantiated at the line HELLO. -/
theorem C5_witness :
    processa_comando ⟨⟨3000, 1600, 2000, false, 50400, 123⟩, "HELLO".toList, true⟩ =
      ⟨⟨3000, 1600, 2000, false, 50400, 123⟩, [], false⟩ :=
  C5_unknown_command_noop ⟨⟨3000, 1600, 2000, false, 50400, 123⟩, "HELLO".toList, true⟩
    (by decide) (by decide) (by decide) (by decide) (by decide) (by decide)

/-- Claim C6 (amended): part one, every state reached by the receive
interrupt from boot keeps the buffer invariant (100 bytes, cursor at most
99, no stored line terminators); part two, whenever a received byte turns
the ready flag from clear to set, that byte is a line terminator, the line
is non-empty (cursor positive), the buffer now holds a NUL at the cursor,
and every byte below the cursor is unchanged and is not a line terminator —
i.e. the flag is set only when the buffer holds a null-terminated, non-empty
line with the terminator stripped. The original claim's further assertion
that the interrupt never writes into the buffer again until the main loop
processes the command is refuted by `C6_counterexample`. -/
theorem C6_ready_flag_line :
    (∀ cs : List Char, RxWF (rxRun rxInit cs))
    ∧ (∀ (s : RxState) (c : Char), RxWF s → s.pronto = false →
        (rxStep s c).pronto = true →
        (c = '\n' ∨ c = '\r') ∧ 0 < s.idx ∧
        (rxStep s c).buf.getD s.idx 'A' = NUL ∧
        ∀ i < s.idx, (rxStep s c).buf.getD i 'A' = s.buf.getD i 'A' ∧
          (rxStep s c).buf.getD i 'A' ≠ '\n' ∧ (rxStep s c).buf.getD i 'A' ≠ '\r') := by
  refine ⟨fun cs => rxWF_run rxInit cs rxWF_init, ?_⟩
  intro s c hwf hp hset
  obtain ⟨hlen, hidx, hnt⟩ := hwf
  by_cases hterm : (c == '\n' || c == '\r') = true
  · by_cases hpos : 0 < s.idx
    · have hstep : rxStep s c = ⟨s.buf.set s.idx NUL, 0, true⟩ := by
        rw [rxStep]; simp [hterm, hpos]
      rw [hstep]
      refine ⟨by simpa using hterm, hpos, ?_, ?_⟩
      · rw [List.getD_eq_getElem _ _ (by simp [hlen]; omega)]
        exact List.getElem_set_self _
      · intro i hi
        have hne : s.idx ≠ i := by omega
        have hilt : i < s.buf.length := by omega
        have h1 : (s.buf.set s.idx NUL).getD i 'A' = s.buf.getD i 'A' := by
          rw [List.getD_eq_getElem?_getD, List.getElem?_set_ne hne,
            ← List.getD_eq_getElem?_getD]
        refine ⟨h1, ?_, ?_⟩
        · rw [h1, List.getD_eq_getElem _ _ hilt]
          exact (hnt _ (List.getElem_mem hilt)).1
        · rw [h1, List.getD_eq_getElem _ _ hilt]
          exact (hnt _ (List.getElem_mem hilt)).2
    · have hstep : rxStep s c = s := by
        rw [rxStep]; simp [hterm, hpos]
      rw [hstep, hp] at hset
      exact absurd hset (by simp)
  · by_cases hsp : s.idx < 99
    · have hstep : rxStep s c = ⟨s.buf.set s.idx c, s.idx + 1, s.pronto⟩ := by
        rw [rxStep]; simp [hterm, hsp]
      rw [hstep] at hset
      rw [show (⟨s.buf.set s.idx c, s.idx + 1, s.pronto⟩ : RxState).pronto = s.pronto
        from rfl, hp] at hset
      exact absurd hset (by simp)
    · have hstep : rxStep s c = s := by
        rw [rxStep]; simp [hterm, hsp]
      rw [hstep, hp] at hset
      exact absurd hset (by simp)

/-- Claim C6 witness: the amended claim instantiated at the one-byte line A
terminated by a newline. -/
theorem C6_witness :
    RxWF (rxRun rxInit ['A']) ∧
    ((rxRun rxInit ['A']).pronto = false ∧
      (rxStep (rxRun rxInit ['A']) '\n').pronto = true) ∧
    (('\n' : Char) = '\n' ∨ ('\n' : Char) = '\r') ∧ 0 < (rxRun rxInit ['A']).idx ∧
    (rxStep (rxRun rxInit ['A']) '\n').buf.getD (rxRun rxInit ['A']).idx 'A' = NUL ∧
    ∀ i < (rxRun rxInit ['A']).idx,
      (rxStep (rxRun rxInit ['A']) '\n').buf.getD i 'A' = (rxRun rxInit ['A']).buf.getD i 'A' ∧
      (rxStep (rxRun rxInit ['A']) '\n').buf.getD i 'A' ≠ '\n' ∧
      (rxStep (rxRun rxInit ['A']) '\n').buf.getD i 'A' ≠ '\r' :=
  ⟨C6_ready_flag_line.1 ['A'], ⟨by decide, by decide⟩,
   C6_ready_flag_line.2 (rxRun rxInit ['A']) '\n'
     (C6_ready_flag_line.1 ['A']) (by decide) (by decide)⟩

/-- Claim C6 counterexample: after the line A is terminated (ready flag set),
a further received byte B is written into the command buffer by the receive
interrupt before any main-loop processing, so the original claim that the
interrupt never writes into the buffer while the flag is set is false. -/
theorem C6_counterexample :
    (rxRun rxInit ['A', '\n']).pronto = true ∧
    (rxStep (rxRun rxInit ['A', '\n']) 'B').buf ≠ (rxRun rxInit ['A', '\n']).buf := by
  decide

/-- Claim C7: the light-present predicate is inclusive at the threshold:
with `light_threshold = 2000`, `tem_sol` is true for every filtered value at
most 2000 (hence at 1999) and false for every filtered value strictly above
2000 (hence at 2001); with the grow-light output off the overall
light-present condition reduces to `tem_sol`. -/
theorem C7_tem_sol_boundary (ldr : Nat) :
    (ldr ≤ 2000 → tem_sol ldr 2000 = true) ∧
    (2000 < ldr → tem_sol ldr 2000 = false) := by
  constructor
  · intro h
    simp [tem_sol, h]
  · intro h
    simp [tem_sol]
    omega

/-- Claim C7 witness: the boundary claim instantiated at 1999 and 2001. -/
theorem C7_witness :
    tem_sol 1999 2000 = true ∧ tem_sol 2001 2000 = false :=
  ⟨(C7_tem_sol_boundary 1999).1 (by decide), (C7_tem_sol_boundary 2001).2 (by decide)⟩

/-- Claim C8: after processing SET,HUMID,1234 the moisture setpoint is 1234,
an actuator evaluation at filtered moisture 1235 turns the pump ON, and one
at 1234 (equal to the setpoint) leaves it OFF: the comparison is strictly
greater-than. -/
theorem C8_pump_strict (cfg : Config) (p : Bool) :
    (processa_comando ⟨cfg, cmdHumid1234, p⟩).cfg.umid_set = 1234 ∧
    pump_on 1235 (processa_comando ⟨cfg, cmdHumid1234, p⟩).cfg.umid_set = true ∧
    pump_on 1234 (processa_comando ⟨cfg, cmdHumid1234, p⟩).cfg.umid_set = false :=
  ⟨rfl, rfl, rfl⟩

/-- Claim C9: processing RESET,TIMER_LUZ sets `seconds_of_light_today` to 0
and leaves the moisture setpoint, temperature setpoint, light threshold,
photoperiod flag and daily light goal unchanged, for every prior state. -/
theorem C9_reset_timer (cfg : Config) (p : Bool) :
    processa_comando ⟨cfg, cmdResetTimer, p⟩ = ⟨{ cfg with seg_luz := 0 }, [], false⟩ ∧
    (processa_comando ⟨cfg, cmdResetTimer, p⟩).cfg.seg_luz = 0 ∧
    (processa_comando ⟨cfg, cmdResetTimer, p⟩).cfg.umid_set = cfg.umid_set ∧
    (processa_comando ⟨cfg, cmdResetTimer, p⟩).cfg.temp_set = cfg.temp_set ∧
    (processa_comando ⟨cfg, cmdResetTimer, p⟩).cfg.ldr_limiar = cfg.ldr_limiar ∧
    (processa_comando ⟨cfg, cmdResetTimer, p⟩).cfg.foto = cfg.foto ∧
    (processa_comando ⟨cfg, cmdResetTimer, p⟩).cfg.meta = cfg.meta :=
  ⟨rfl, rfl, rfl, rfl, rfl, rfl, rfl⟩

/-- Claim C10: the receive interrupt never moves the cursor past 99 and never
changes the 100-byte buffer size (so every buffer access stays in bounds); a
non-terminator byte arriving with the cursor at 99 is silently discarded;
and a line of non-terminator bytes followed by a newline is delivered
truncated to its first 99 characters, NUL-terminated, with the ready flag
set and the cursor reset. -/
theorem C10_rx_buffer_bounds :
    (∀ cs : List Char, (rxRun rxInit cs).idx ≤ 99 ∧ (rxRun rxInit cs).buf.length = 100)
    ∧ (∀ (s : RxState) (c : Char), c ≠ '\n' → c ≠ '\r' → 99 ≤ s.idx → rxStep s c = s)
    ∧ (∀ cs : List Char, (∀ c ∈ cs, c ≠ '\n' ∧ c ≠ '\r') → cs ≠ [] →
        rxRun rxInit (cs ++ ['\n']) =
          ⟨cs.take 99 ++ List.replicate (100 - min cs.length 99) NUL, 0, true⟩) := by
  refine ⟨?_, ?_, ?_⟩
  · intro cs
    have h := rxWF_run rxInit cs rxWF_init
    exact ⟨h.2.1, h.1⟩
  · intro s c h1 h2 h3
    rw [rxStep]
    simp only [show (c == '\n' || c == '\r') = false from by simp [h1, h2],
      Bool.false_eq_true, if_false, show ¬(s.idx < 99) from by omega, if_false]
  · intro cs hnt hne
    rw [rxRun_concat, rxRun_nonterm cs hnt, rxStep]
    have hpos : 0 < cs.length := List.length_pos.2 hne
    simp only [show (('\n' : Char) == '\n' || ('\n' : Char) == '\r') = true from by decide,
      if_true, show (0 < min cs.length 99) from by omega, if_true]
    have hlt : min cs.length 99 = (cs.take 99).length := by
      simp [List.length_take]; omega
    rw [hlt, set_append_len]
    rw [show (100 - (List.take 99 cs).length) = (100 - (List.take 99 cs).length - 1) + 1 from by
        have := List.length_take 99 cs; omega,
      List.replicate_succ]
    simp [List.set]

/-- Claim C10 witness: the bounds claim instantiated at a one-byte stream, a
full-cursor discard, and a 100-character over-long line. -/
theorem C10_witness :
    ((rxRun rxInit ['A']).idx ≤ 99 ∧ (rxRun rxInit ['A']).buf.length = 100)
    ∧ rxStep ⟨List.replicate 100 'x', 99, false⟩ 'q' = ⟨List.replicate 100 'x', 99, false⟩
    ∧ rxRun rxInit (List.replicate 100 'A' ++ ['\n']) =
        ⟨(List.replicate 100 'A' : List Char).take 99 ++
          List.replicate (100 - min (List.replicate 100 'A' : List Char).length 99) NUL,
         0, true⟩ :=
  ⟨C10_rx_buffer_bounds.1 ['A'],
   C10_rx_buffer_bounds.2.1 ⟨List.replicate 100 'x', 99, false⟩ 'q'
     (by decide) (by decide) (by decide),
   C10_rx_buffer_bounds.2.2 (List.replicate 100 'A') (by decide) (by decide)⟩

end Estufa
